import Mathlib

/-!
Shallow embedding of the `pwned` Go package (src/pwned.go): a client of the
Pwned Passwords k-anonymity range API.  The package exposes
`getHash` (SHA-1 fingerprint of the password, uppercase hex, with its
5-character range key) and `IsPwned` (HTTP range lookup followed by a linear
scan over the `suffix:count` response lines).

The embedding follows the source line by line.  Library functions the source
calls (`crypto/sha1`, `strings.Split`, `strings.ToUpper`,
`strconv.ParseUint`) are modelled faithfully over `Nat` and `List Char`;
machine words are `Nat` reduced modulo `2 ^ 32` or `2 ^ 64` where the Go
types are `uint32` and `uint64`.  The network call in `IsPwned` is an
explicit parameter: a function from the request URL to the transport's
outcome.  Go runtime panics (out-of-range indexing, as in
`components[1]`) are a distinguished outcome, separate from returning
`(result, error)`.
-/

set_option maxRecDepth 1000000

/-! ## SHA-1 (modelling Go `crypto/sha1`, FIPS 180-4) -/

/-- Reduction modulo `2 ^ 32`, the semantics of Go `uint32` arithmetic. -/
def w32 (x : Nat) : Nat := x % 4294967296

/-- Rotate a 32-bit word left by `n` bits. -/
def rotl (n x : Nat) : Nat := w32 ((x <<< n) ||| (x >>> (32 - n)))

/-- The SHA-1 round function: Ch, Parity, Maj, Parity by round index.
Bitwise complement of a 32-bit word is xor with the all-ones mask. -/
def sha1F (t b c d : Nat) : Nat :=
  if t < 20 then (b &&& c) ||| ((4294967295 ^^^ b) &&& d)
  else if t < 40 then b ^^^ c ^^^ d
  else if t < 60 then (b &&& c) ||| (b &&& d) ||| (c &&& d)
  else b ^^^ c ^^^ d

/-- The SHA-1 round constants. -/
def sha1K (t : Nat) : Nat :=
  if t < 20 then 0x5A827999
  else if t < 40 then 0x6ED9EBA1
  else if t < 60 then 0x8F1BBCDC
  else 0xCA62C1D6

/-- Extend the 16 block words by `n` further schedule words. -/
def sha1Extend (ws : List Nat) : Nat → List Nat
  | 0 => ws
  | n + 1 =>
    let l := ws.length
    sha1Extend (ws ++ [rotl 1 ((ws.getD (l - 3) 0) ^^^ (ws.getD (l - 8) 0) ^^^
      (ws.getD (l - 14) 0) ^^^ (ws.getD (l - 16) 0))]) n

/-- One SHA-1 compression round on the five-word working state. -/
def sha1Round (W : List Nat) (st : Nat × Nat × Nat × Nat × Nat) (t : Nat) :
    Nat × Nat × Nat × Nat × Nat :=
  let (a, b, c, d, e) := st
  let temp := w32 (rotl 5 a + sha1F t b c d + e + sha1K t + W.getD t 0)
  (temp, a, rotl 30 b, c, d)

/-- Big-endian 32-bit words from a byte list. -/
def toWords : List Nat → List Nat
  | b0 :: b1 :: b2 :: b3 :: rest =>
    ((((b0 <<< 8) ||| b1) <<< 8 ||| b2) <<< 8 ||| b3) :: toWords rest
  | _ => []

/-- Compress one 64-byte block into the running hash state. -/
def sha1Block (h : Nat × Nat × Nat × Nat × Nat) (block : List Nat) :
    Nat × Nat × Nat × Nat × Nat :=
  let (h0, h1, h2, h3, h4) := h
  let W := sha1Extend (toWords block) 64
  let (a, b, c, d, e) := (List.range 80).foldl (sha1Round W) (h0, h1, h2, h3, h4)
  (w32 (h0 + a), w32 (h1 + b), w32 (h2 + c), w32 (h3 + d), w32 (h4 + e))

/-- Merkle–Damgård padding: `0x80`, zeros to 56 mod 64, 64-bit big-endian
bit length. -/
def padMsg (msg : List Nat) : List Nat :=
  let L := msg.length
  let z := (64 - ((L + 9) % 64)) % 64
  let bits := (L * 8) % 18446744073709551616
  msg ++ [0x80] ++ List.replicate z 0 ++
    [(bits >>> 56) % 256, (bits >>> 48) % 256, (bits >>> 40) % 256, (bits >>> 32) % 256,
     (bits >>> 24) % 256, (bits >>> 16) % 256, (bits >>> 8) % 256, bits % 256]

/-- Split a byte list into 64-byte blocks; the fuel is an upper bound on the
number of blocks, so that the recursion is structural. -/
def toBlocksAux : Nat → List Nat → List (List Nat)
  | 0, _ => []
  | _, [] => []
  | fuel + 1, bs => bs.take 64 :: toBlocksAux fuel (bs.drop 64)

/-- Split a byte list into 64-byte blocks. -/
def toBlocks (bs : List Nat) : List (List Nat) := toBlocksAux bs.length bs

/-- Big-endian bytes of a 32-bit word. -/
def wordBytes (w : Nat) : List Nat :=
  [(w >>> 24) % 256, (w >>> 16) % 256, (w >>> 8) % 256, w % 256]

/-- The 20-byte SHA-1 digest of a byte message, as Go
`sha1.New` / `Write` / `Sum`. -/
def sha1Digest (msg : List Nat) : List Nat :=
  let (h0, h1, h2, h3, h4) :=
    (toBlocks (padMsg msg)).foldl sha1Block
      (0x67452301, 0xEFCDAB89, 0x98BADCFE, 0x10325476, 0xC3D2E1F0)
  wordBytes h0 ++ wordBytes h1 ++ wordBytes h2 ++ wordBytes h3 ++ wordBytes h4

/-! ## Hex rendering and string bytes -/

/-- Lowercase hexadecimal digit, as Go `fmt.Sprintf` with the `x` verb. -/
def hexChar (n : Nat) : Char := Char.ofNat (if n < 10 then 48 + n else 87 + n)

/-- Two lowercase hex digits of one byte. -/
def byteHex (b : Nat) : List Char := [hexChar (b / 16), hexChar (b % 16)]

/-- Per-byte lowercase hex rendering of a byte slice. -/
def bytesToHex : List Nat → List Char
  | [] => []
  | b :: bs => byteHex b ++ bytesToHex bs

/-- UTF-8 bytes of one code point. -/
def utf8Bytes (c : Nat) : List Nat :=
  if c < 0x80 then [c]
  else if c < 0x800 then
    [0xC0 ||| (c >>> 6), 0x80 ||| (c &&& 0x3F)]
  else if c < 0x10000 then
    [0xE0 ||| (c >>> 12), 0x80 ||| ((c >>> 6) &&& 0x3F), 0x80 ||| (c &&& 0x3F)]
  else
    [0xF0 ||| (c >>> 18), 0x80 ||| ((c >>> 12) &&& 0x3F),
     0x80 ||| ((c >>> 6) &&& 0x3F), 0x80 ||| (c &&& 0x3F)]

/-- UTF-8 bytes of a character list. -/
def utf8Concat : List Char → List Nat
  | [] => []
  | c :: cs => utf8Bytes c.toNat ++ utf8Concat cs

/-- The byte content of a Go string: its UTF-8 encoding.  `io.WriteString`
feeds exactly these bytes to the hash. -/
def strBytes (s : String) : List Nat := utf8Concat s.data

/-- Lowercase hex string of the SHA-1 digest of a byte message. -/
def sha1Hex (msg : List Nat) : String := ⟨bytesToHex (sha1Digest msg)⟩

/-- ASCII uppercasing applied characterwise, as Go `strings.ToUpper` acts on
the ASCII strings produced by hex rendering. -/
def goToUpper (s : String) : String := ⟨s.data.map Char.toUpper⟩

/-! ## The pwned package: data model and `getHash` -/

/-- Result describes a result from the Pwned Password service
(src/pwned.go, `Result`).  `TimesObserved` is a Go `uint64`, embedded as a
`Nat` kept below `2 ^ 64` by the parser. -/
structure Result where
  Pwned : Bool
  TimesObserved : Nat
deriving DecidableEq, Repr

/-- The internal hash record (src/pwned.go, `pwnedHash`): the full uppercase
hex digest and its 5-character range key. -/
structure pwnedHash where
  Hash : String
  Range : String
deriving DecidableEq, Repr

/-- getHash (src/pwned.go lines 76–85): SHA-1 the password bytes, render as
lowercase hex, uppercase it, and keep the first five characters as the
range.  Go's `hash[0:5]` slices bytes; on this ASCII hex string that is the
first five characters. -/
def getHash (password : String) : pwnedHash :=
  let hash := goToUpper (sha1Hex (strBytes password))
  { Hash := hash, Range := ⟨hash.data.take 5⟩ }

/-! ## Go `strings.Split` -/

/-- When `sep` is a literal head of `l`, return the remainder after it. -/
def matchesAt : List Char → List Char → Option (List Char)
  | [], rest => some rest
  | _, [] => none
  | p :: ps, c :: cs => if p = c then matchesAt ps cs else none

/-- Leftmost occurrence of `sep` in `l`: the part before it and the part
after it. -/
def splitFirst (sep : List Char) : List Char → Option (List Char × List Char)
  | [] => none
  | c :: cs =>
    match matchesAt sep (c :: cs) with
    | some post => some ([], post)
    | none =>
      match splitFirst sep cs with
      | none => none
      | some (pre, post) => some (c :: pre, post)

/-- Split around every occurrence of `sep`, fuelled by the input length
(each split consumes at least one character when `sep` is nonempty). -/
def goSplitAux (sep : List Char) : Nat → List Char → List (List Char)
  | 0, l => [l]
  | fuel + 1, l =>
    match splitFirst sep l with
    | none => [l]
    | some (pre, post) => pre :: goSplitAux sep fuel post

/-- Go `strings.Split s sep` for nonempty `sep` (the only uses in the
source are `":"` and CRLF). -/
def goSplit (s sep : String) : List String :=
  (goSplitAux sep.data s.data.length s.data).map String.mk

/-! ## Go `strconv.ParseUint` -/

/-- Go `strconv.ParseUint countStr 10 64`: nonempty, decimal digits only, no
sign, value below `2 ^ 64`; `none` is a non-nil Go error (syntax or range). -/
def parseUint10 (s : String) : Option Nat :=
  if s.data.isEmpty then none
  else if s.data.all Char.isDigit then
    let n := s.data.foldl (fun acc c => acc * 10 + (c.toNat - 48)) 0
    if n < 18446744073709551616 then some n else none
  else none

/-! ## `IsPwned` -/

/-- The error values `IsPwned` can return: transport errors from `http.Get`
or the body read, and the `strconv` error for an unparsable count (the
spec's ProtocolError), carrying the offending count text. -/
inductive GoError where
  | transport (msg : String)
  | numError (input : String)
deriving DecidableEq, Repr

/-- One invocation's observable outcome: a normal return of the Go pair
`(*Result, error)`, or a runtime panic (out-of-range index). -/
inductive RunOutcome where
  | panics
  | returns (res : Option Result) (err : Option GoError)
deriving DecidableEq, Repr

/-- The transport's answer to the single `http.Get`: a `Get` error, a body
read error, or the response body text. -/
inductive NetResult where
  | getErr (e : GoError)
  | readErr (e : GoError)
  | body (s : String)
deriving DecidableEq, Repr

/-- The request URL built by `IsPwned` (src/pwned.go line 39). -/
def rangeURL (h : pwnedHash) : String :=
  "https://api.pwnedpasswords.com/range/" ++ h.Range

/-- The CRLF line separator used on the response body. -/
def crlfSep : String := "\r\n"

/-- The components of one response line (src/pwned.go line 51):
`strings.Split line ":"`. -/
def lineComponents (line : String) : List String := goSplit line ":"

/-- The scan loop of `IsPwned` (src/pwned.go lines 50–73).  Go reads
`components[0]` and `components[1]` before comparing, so a line with fewer
than two components panics whether or not it would have matched; a matching
line returns the parsed count or the parse error; exhausting the lines
returns the not-pwned result. -/
def scanLines (h : pwnedHash) : List String → RunOutcome
  | [] => RunOutcome.returns (some { Pwned := false, TimesObserved := 0 }) none
  | line :: rest =>
    match lineComponents line with
    | resultHash :: countStr :: _ =>
      if h.Range ++ resultHash = h.Hash then
        match parseUint10 countStr with
        | some count =>
          RunOutcome.returns (some { Pwned := true, TimesObserved := count }) none
        | none => RunOutcome.returns none (some (GoError.numError countStr))
      else scanLines h rest
    | _ => RunOutcome.panics

/-- IsPwned (src/pwned.go lines 37–74).  `net` stands for the HTTP
transport: it is given the request URL and answers with a `Get` error, a
read error, or the body, mirroring the two `err != nil` early returns and
the body scan. -/
def IsPwned (password : String) (net : String → NetResult) : RunOutcome :=
  let hash := getHash password
  match net (rangeURL hash) with
  | NetResult.getErr e => RunOutcome.returns none (some e)
  | NetResult.readErr e => RunOutcome.returns none (some e)
  | NetResult.body body => scanLines hash (goSplit body crlfSep)

/-! ## Helper lemmas -/

/-- A response line matches when the range key concatenated with its first
component equals the full hash (the comparison on src/pwned.go line 55). -/
def matchesLine (h : pwnedHash) (line : String) : Prop :=
  h.Range ++ (lineComponents line).getD 0 "" = h.Hash

instance (h : pwnedHash) (line : String) : Decidable (matchesLine h line) := by
  unfold matchesLine; exact inferInstance

theorem scanLines_skip (h : pwnedHash) (pre rest : List String)
    (hpre : ∀ l ∈ pre, 2 ≤ (lineComponents l).length ∧ ¬ matchesLine h l) :
    scanLines h (pre ++ rest) = scanLines h rest := by
  induction pre with
  | nil => rfl
  | cons l pre ih =>
    obtain ⟨hlen, hm⟩ := hpre l (List.mem_cons_self l pre)
    rcases hcomp : lineComponents l with _ | ⟨a, rs⟩
    · rw [hcomp] at hlen; simp at hlen
    · rcases rs with _ | ⟨b, t⟩
      · rw [hcomp] at hlen; simp at hlen
      · have hne : ¬ (h.Range ++ a = h.Hash) := by
          unfold matchesLine at hm; rw [hcomp] at hm; exact hm
        rw [List.cons_append]
        simp only [scanLines, hcomp]
        rw [if_neg hne]
        exact ih (fun l' hl' => hpre l' (List.mem_cons_of_mem _ hl'))

theorem parseUint10_lt (s : String) (c : Nat) (h : parseUint10 s = some c) :
    c < 18446744073709551616 := by
  simp only [parseUint10] at h
  split at h
  · cases h
  · split at h
    · split at h
      · injection h with h'
        omega
      · cases h
    · cases h

theorem scanLines_exclusive (h : pwnedHash) :
    ∀ (lines : List String) (res : Option Result) (err : Option GoError),
      scanLines h lines = RunOutcome.returns res err →
      (res.isSome = true ∧ err = none) ∨ (res = none ∧ err.isSome = true) := by
  intro lines
  induction lines with
  | nil =>
    intro res err hEq
    simp only [scanLines] at hEq
    injection hEq with h1 h2
    subst h1; subst h2
    left; exact ⟨rfl, rfl⟩
  | cons line rest ih =>
    intro res err hEq
    simp only [scanLines] at hEq
    split at hEq
    · split at hEq
      · split at hEq
        · injection hEq with h1 h2
          subst h1; subst h2
          left; exact ⟨rfl, rfl⟩
        · injection hEq with h1 h2
          subst h1; subst h2
          right; exact ⟨rfl, rfl⟩
      · exact ih _ _ hEq
    · cases hEq

theorem scanLines_count_lt (h : pwnedHash) :
    ∀ (lines : List String) (r : Result) (err : Option GoError),
      scanLines h lines = RunOutcome.returns (some r) err →
      r.TimesObserved < 18446744073709551616 := by
  intro lines
  induction lines with
  | nil =>
    intro r err hEq
    simp only [scanLines] at hEq
    injection hEq with h1 _
    injection h1 with h1
    subst h1
    decide
  | cons line rest ih =>
    intro r err hEq
    simp only [scanLines] at hEq
    split at hEq
    · split at hEq
      · split at hEq
        case _ c hc =>
          injection hEq with h1 _
          injection h1 with h1
          subst h1
          exact parseUint10_lt _ c hc
        · injection hEq with h1 _
          cases h1
      · exact ih _ _ hEq
    · cases hEq

theorem mem_wordBytes_lt (w : Nat) : ∀ b ∈ wordBytes w, b < 256 := by
  intro b hb
  simp only [wordBytes, List.mem_cons, List.not_mem_nil, or_false] at hb
  rcases hb with h | h | h | h <;> subst h <;> exact Nat.mod_lt _ (by decide)

theorem sha1Digest_shape (msg : List Nat) :
    ∃ a b c d e, sha1Digest msg =
      wordBytes a ++ wordBytes b ++ wordBytes c ++ wordBytes d ++ wordBytes e := by
  unfold sha1Digest
  set t := (toBlocks (padMsg msg)).foldl sha1Block
    (0x67452301, 0xEFCDAB89, 0x98BADCFE, 0x10325476, 0xC3D2E1F0) with ht
  obtain ⟨a, b, c, d, e⟩ := t
  exact ⟨a, b, c, d, e, rfl⟩

theorem sha1Digest_length (msg : List Nat) : (sha1Digest msg).length = 20 := by
  obtain ⟨a, b, c, d, e, hEq⟩ := sha1Digest_shape msg
  rw [hEq]
  simp [wordBytes]

theorem mem_sha1Digest_lt (msg : List Nat) : ∀ x ∈ sha1Digest msg, x < 256 := by
  obtain ⟨a, b, c, d, e, hEq⟩ := sha1Digest_shape msg
  rw [hEq]
  intro x hx
  simp only [List.mem_append] at hx
  rcases hx with ((((hx | hx) | hx) | hx) | hx) <;> exact mem_wordBytes_lt _ x hx

theorem bytesToHex_length (bs : List Nat) : (bytesToHex bs).length = 2 * bs.length := by
  induction bs with
  | nil => rfl
  | cons b bs ih =>
    simp only [bytesToHex, byteHex, List.cons_append, List.nil_append,
      List.length_cons, ih, List.length_cons]
    omega

theorem mem_bytesToHex : ∀ (bs : List Nat), (∀ b ∈ bs, b < 256) →
    ∀ c ∈ bytesToHex bs, ∃ n, n < 16 ∧ c = hexChar n := by
  intro bs
  induction bs with
  | nil =>
    intro _ c hc
    simp [bytesToHex] at hc
  | cons b bs ih =>
    intro hbs c hc
    simp only [bytesToHex, byteHex, List.cons_append, List.nil_append,
      List.mem_cons] at hc
    have hb : b < 256 := hbs b (List.mem_cons_self _ _)
    rcases hc with h | h | h
    · exact ⟨b / 16, by omega, h⟩
    · exact ⟨b % 16, by omega, h⟩
    · exact ih (fun x hx => hbs x (List.mem_cons_of_mem _ hx)) c h

/-- Decides whether a character is an uppercase hexadecimal digit, the
alphabet of the hash strings the package builds. -/
def isUpperHexChar (c : Char) : Bool :=
  (48 ≤ c.toNat && c.toNat ≤ 57) || (65 ≤ c.toNat && c.toNat ≤ 70)

theorem hexChar_upper : ∀ n < 16, isUpperHexChar (Char.toUpper (hexChar n)) = true := by
  decide

/-- C5: for every password, the fingerprint's full hash is a 40-character
uppercase hexadecimal string, its range key has length exactly 5, and the
full hash starts with the range key. -/
theorem pwned_hash_shape (p : String) :
    (getHash p).Hash.length = 40 ∧
    (getHash p).Hash.data.all isUpperHexChar = true ∧
    (getHash p).Range.length = 5 ∧
    ∃ rest, (getHash p).Hash = (getHash p).Range ++ rest := by
  have hdata : (getHash p).Hash.data =
      (bytesToHex (sha1Digest (strBytes p))).map Char.toUpper := rfl
  have hlen : (getHash p).Hash.data.length = 40 := by
    rw [hdata, List.length_map, bytesToHex_length, sha1Digest_length]
  have hrange : (getHash p).Range.data = (getHash p).Hash.data.take 5 := rfl
  refine ⟨hlen, ?_, ?_, ?_⟩
  · rw [hdata]
    rw [List.all_eq_true]
    intro c hc
    rw [List.mem_map] at hc
    obtain ⟨c', hc', rfl⟩ := hc
    obtain ⟨n, hn, rfl⟩ :=
      mem_bytesToHex (sha1Digest (strBytes p)) (mem_sha1Digest_lt _) c' hc'
    exact hexChar_upper n hn
  · show (getHash p).Range.data.length = 5
    rw [hrange, List.length_take, hlen]
    decide
  · refine ⟨⟨(getHash p).Hash.data.drop 5⟩, ?_⟩
    apply String.ext
    rw [String.data_append, hrange]
    exact (List.take_append_drop 5 _).symm

/-! ## Claim theorems -/

/-- C1 (counterexample): the spec's 39-character known-vector string is not
the hash the code computes for "password"; the code's hash has 40
characters and ends in an extra 8. -/
theorem pwned_known_vector_cex :
    (getHash "password").Hash ≠ "5BAA61E4C9B93F3F0682250B6CF8331B7EE68FD" := by
  decide

/-- C1 (amended): for the input password "password", getHash returns the
full 40-character hash 5BAA61E4C9B93F3F0682250B6CF8331B7EE68FD8 and the
range key 5BAA6. -/
theorem pwned_known_vector :
    (getHash "password").Hash = "5BAA61E4C9B93F3F0682250B6CF8331B7EE68FD8" ∧
    (getHash "password").Range = "5BAA6" :=
  ⟨rfl, rfl⟩

/-- C2 (code bug): on a response line without a colon separator the code
reads `components[1]`, which does not exist, so the lookup panics instead
of returning an error value; and a non-numeric count on a non-matching
line is silently ignored rather than reported. -/
theorem pwned_malformed_line_panics :
    IsPwned "password"
      (fun _ => NetResult.body "5BAA61E4C9B93F3F0682250B6CF8331B7EE68FD8 3730471") =
      RunOutcome.panics ∧
    IsPwned "password"
      (fun _ => NetResult.body "00000000000000000000000000000000000:NOTANUMBER") =
      RunOutcome.returns (some { Pwned := false, TimesObserved := 0 }) none :=
  ⟨rfl, rfl⟩

/-- C3 (counterexample): with the spec's literal line, whose suffix has only
34 characters, checking "password" yields found = false, not found = true
with count 3730471: the concatenation is 39 characters long and cannot
equal the 40-character hash. -/
theorem pwned_match_case_cex :
    IsPwned "password"
      (fun _ => NetResult.body "1E4C9B93F3F0682250B6CF8331B7EE68FD:3730471") =
      RunOutcome.returns (some { Pwned := false, TimesObserved := 0 }) none ∧
    IsPwned "password"
      (fun _ => NetResult.body "1E4C9B93F3F0682250B6CF8331B7EE68FD:3730471") ≠
      RunOutcome.returns (some { Pwned := true, TimesObserved := 3730471 }) none := by
  exact ⟨rfl, by decide⟩

/-- C3 (amended): with the corrected 35-character suffix line
1E4C9B93F3F0682250B6CF8331B7EE68FD8:3730471, checking "password" yields
found = true with count 3730471; and in general, when every line before the
first matching line has a colon and is non-matching, and the matching
line's count parses, the scan returns found = true with that count. -/
theorem pwned_match_case :
    (IsPwned "password"
      (fun _ => NetResult.body "1E4C9B93F3F0682250B6CF8331B7EE68FD8:3730471") =
      RunOutcome.returns (some { Pwned := true, TimesObserved := 3730471 }) none) ∧
    ∀ (p : String) (pre rest : List String) (line suf cnt : String)
      (tl : List String) (c : Nat),
      (∀ l ∈ pre, 2 ≤ (lineComponents l).length ∧ ¬ matchesLine (getHash p) l) →
      lineComponents line = suf :: cnt :: tl →
      (getHash p).Range ++ suf = (getHash p).Hash →
      parseUint10 cnt = some c →
      scanLines (getHash p) (pre ++ line :: rest) =
        RunOutcome.returns (some { Pwned := true, TimesObserved := c }) none := by
  constructor
  · rfl
  · intro p pre rest line suf cnt tl c hpre hcomp hmatch hparse
    rw [scanLines_skip _ _ _ hpre]
    simp only [scanLines, hcomp]
    rw [if_pos hmatch, hparse]

/-- C3 (witness): the general match statement applied to a concrete body of
one non-matching line followed by the matching line. -/
theorem pwned_match_case_wit :
    scanLines (getHash "password")
      (["AAAAA:1"] ++ "1E4C9B93F3F0682250B6CF8331B7EE68FD8:3730471" :: []) =
      RunOutcome.returns (some { Pwned := true, TimesObserved := 3730471 }) none :=
  pwned_match_case.2 "password" ["AAAAA:1"] [] "1E4C9B93F3F0682250B6CF8331B7EE68FD8:3730471"
    "1E4C9B93F3F0682250B6CF8331B7EE68FD8" "3730471" [] 3730471
    (by decide) rfl rfl rfl

/-- C4 (counterexample): the body "AAAA" contains no matching line, yet the
lookup does not return found = false: its single line has no colon, so the
code panics reading `components[1]`. -/
theorem pwned_no_match_cex :
    IsPwned "password" (fun _ => NetResult.body "AAAA") = RunOutcome.panics :=
  rfl

/-- C4 (amended): for every response body each of whose lines contains a
colon and none of whose lines matches the fingerprint, the lookup returns
found = false with count 0. -/
theorem pwned_no_match (p body : String)
    (h : ∀ l ∈ goSplit body crlfSep,
      2 ≤ (lineComponents l).length ∧ ¬ matchesLine (getHash p) l) :
    IsPwned p (fun _ => NetResult.body body) =
      RunOutcome.returns (some { Pwned := false, TimesObserved := 0 }) none := by
  have hred : IsPwned p (fun _ => NetResult.body body) =
      scanLines (getHash p) (goSplit body crlfSep) := rfl
  rw [hred, ← List.append_nil (goSplit body crlfSep), scanLines_skip _ _ _ h]
  rfl

/-- C4 (witness): the no-match statement applied to a concrete well-formed
single-line body. -/
theorem pwned_no_match_wit :
    IsPwned "password" (fun _ => NetResult.body "AAAAA:1") =
      RunOutcome.returns (some { Pwned := false, TimesObserved := 0 }) none :=
  pwned_no_match "password" "AAAAA:1" (by decide)

/-- C6 (counterexample): a body whose matching line has a non-numeric count
but which also contains an earlier colon-free line panics instead of
returning the error value the claim promises. -/
theorem pwned_malformed_count_cex :
    IsPwned "password"
      (fun _ => NetResult.body "X\r\n1E4C9B93F3F0682250B6CF8331B7EE68FD8:oops") =
      RunOutcome.panics :=
  rfl

/-- C6 (amended): when every line before the matching line has a colon and
is non-matching, and the matching line's count does not parse as a decimal
uint64, the scan returns the parse error and no result — neither
found = true with a bogus count nor found = false. -/
theorem pwned_malformed_count (p : String) (pre rest : List String)
    (line suf cnt : String) (tl : List String)
    (hpre : ∀ l ∈ pre, 2 ≤ (lineComponents l).length ∧ ¬ matchesLine (getHash p) l)
    (hcomp : lineComponents line = suf :: cnt :: tl)
    (hmatch : (getHash p).Range ++ suf = (getHash p).Hash)
    (hparse : parseUint10 cnt = none) :
    scanLines (getHash p) (pre ++ line :: rest) =
      RunOutcome.returns none (some (GoError.numError cnt)) := by
  rw [scanLines_skip _ _ _ hpre]
  simp only [scanLines, hcomp]
  rw [if_pos hmatch, hparse]

/-- C6 (witness): the malformed-count statement applied to a concrete
matching line with a non-numeric count. -/
theorem pwned_malformed_count_wit :
    scanLines (getHash "password")
      ([] ++ "1E4C9B93F3F0682250B6CF8331B7EE68FD8:notanumber" :: []) =
      RunOutcome.returns none (some (GoError.numError "notanumber")) :=
  pwned_malformed_count "password" [] []
    "1E4C9B93F3F0682250B6CF8331B7EE68FD8:notanumber"
    "1E4C9B93F3F0682250B6CF8331B7EE68FD8" "notanumber" []
    (by simp) rfl rfl rfl

/-- C7: getHash is a total Lean function, so every password — including the
empty string — has a well-defined fingerprint; concretely, the empty
password hashes to the SHA-1 of the empty message and issues the range
query URL for the 5-character uppercase-hex key DA39A. -/
theorem pwned_empty_password :
    (getHash "").Hash = "DA39A3EE5E6B4B0D3255BFEF95601890AFD80709" ∧
    (getHash "").Range = "DA39A" ∧
    rangeURL (getHash "") = "https://api.pwnedpasswords.com/range/DA39A" ∧
    (getHash "").Range.length = 5 ∧
    (getHash "").Range.data.all isUpperHexChar = true := by
  refine ⟨rfl, rfl, ?_, rfl, by decide⟩
  decide

/-- C8: whenever the synchronous check returns a pair at all, exactly one
side is meaningful: an error with no result, or a result with no error. -/
theorem pwned_result_exclusive (password : String) (net : String → NetResult)
    (res : Option Result) (err : Option GoError)
    (h : IsPwned password net = RunOutcome.returns res err) :
    (res.isSome = true ∧ err = none) ∨ (res = none ∧ err.isSome = true) := by
  simp only [IsPwned] at h
  split at h
  · injection h with h1 h2
    subst h1; subst h2
    right; exact ⟨rfl, rfl⟩
  · injection h with h1 h2
    subst h1; subst h2
    right; exact ⟨rfl, rfl⟩
  · exact scanLines_exclusive _ _ _ _ h

/-- C8 (witness): the exclusivity statement applied to a concrete transport
failure. -/
theorem pwned_result_exclusive_wit :
    ((none : Option Result).isSome = true ∧
      (some (GoError.transport "refused") : Option GoError) = none) ∨
    ((none : Option Result) = none ∧
      (some (GoError.transport "refused") : Option GoError).isSome = true) :=
  pwned_result_exclusive "password"
    (fun _ => NetResult.getErr (GoError.transport "refused"))
    none (some (GoError.transport "refused")) rfl

/-- C9: the fingerprint computation is deterministic — it is a pure
function of the password's bytes, with no randomness and no salt: any two
passwords with the same byte content get identical full hashes and range
keys, and in particular two runs on the same input agree. -/
theorem pwned_hash_deterministic (p1 p2 : String)
    (h : strBytes p1 = strBytes p2) :
    (getHash p1).Hash = (getHash p2).Hash ∧
    (getHash p1).Range = (getHash p2).Range := by
  have hEq : getHash p1 = getHash p2 := by
    unfold getHash
    rw [h]
  exact ⟨by rw [hEq], by rw [hEq]⟩

/-- C9 (witness): the determinism statement applied twice to the same
concrete password. -/
theorem pwned_hash_deterministic_wit :
    (getHash "password").Hash = (getHash "password").Hash ∧
    (getHash "password").Range = (getHash "password").Range :=
  pwned_hash_deterministic "password" "password" rfl

/-- C10: the count is parsed as an unsigned 64-bit decimal integer: every
returned result's count is below 2 ^ 64, and a matching line whose count is
a numeral of 2 ^ 64 or more, or carries a sign, makes the lookup return the
parse error instead of a result. -/
theorem pwned_count_uint64 :
    (∀ (p : String) (net : String → NetResult) (r : Result) (err : Option GoError),
      IsPwned p net = RunOutcome.returns (some r) err →
      r.TimesObserved < 18446744073709551616) ∧
    IsPwned "password"
      (fun _ => NetResult.body "1E4C9B93F3F0682250B6CF8331B7EE68FD8:18446744073709551616") =
      RunOutcome.returns none (some (GoError.numError "18446744073709551616")) ∧
    IsPwned "password"
      (fun _ => NetResult.body "1E4C9B93F3F0682250B6CF8331B7EE68FD8:-3730471") =
      RunOutcome.returns none (some (GoError.numError "-3730471")) := by
  refine ⟨?_, rfl, rfl⟩
  intro p net r err h
  simp only [IsPwned] at h
  split at h
  · injection h with h1 _
    cases h1
  · injection h with h1 _
    cases h1
  · exact scanLines_count_lt _ _ _ _ h

/-- C10 (witness): the bound applied to a concrete returned result. -/
theorem pwned_count_uint64_wit :
    Result.TimesObserved { Pwned := false, TimesObserved := 0 } <
      18446744073709551616 :=
  pwned_count_uint64.1 "password" (fun _ => NetResult.body "AAAAA:1")
    { Pwned := false, TimesObserved := 0 } none rfl
